import Mathlib

/-
Shallow embedding of the tyght-map crate.

The crate stores at most one value per Rust type inside a tuple `S`; every
operation first resolves the queried type to an index with the const fn
`find_index` (src/indexable.rs, src/get.rs) and then acts at that index via
per-index trait impls generated for tuples up to 32 elements (src/macros.rs).

Model: a Rust type is identified by its TypeId, modelled as a Nat.  The
tuple structure `S` is modelled as a `List (Slot α)`, one slot per element,
carrying the TypeId of its static type and its value (values drawn from a
single payload type `α`, since the Rust code moves values opaquely and
branches only on TypeIds).  The head of the list is the first tuple element.

Two implementation generations coexist in the sources and both are embedded:
- the tuple generation used by the facade `TyghtMap` (src/lib.rs):
  `find_index`, `MaybeIndexable` (src/indexable.rs), `TryInsert`/`Insert`
  (src/insert.rs), `GetByIndex`/`Get` (src/get.rs), `RemoveByIndex`/`Remove`
  (src/remove.rs);
- the Cons/Nil generation (src/maybe_contains.rs, src/contains.rs,
  src/missing.rs), embedded as the `mc_` definitions.
-/

namespace TyghtMap

/-- Model of Rust core::any::TypeId: an abstract identifier of a
compile-time type. -/
abbrev TypeId := Nat

/-- Value of usize::MAX on a 64-bit target; `find_index` in
src/indexable.rs and src/get.rs returns it as the NOT_FOUND sentinel. -/
def USIZE_MAX : Nat := 2 ^ 64 - 1

/-- Largest tuple arity for which src/macros.rs generates trait impls
(`size-32`, the default feature set per src/lib.rs). -/
def CAPACITY : Nat := 32

/-- One tuple element: the TypeId of its static type together with the
stored value. -/
structure Slot (α : Type) where
  tid : TypeId
  val : α
deriving DecidableEq

variable {α : Type}

/-- The array of TypeIds of a structure, as built by
`IntoTypeIds::into_ids` (src/indexable.rs). -/
def tids (s : List (Slot α)) : List TypeId := s.map Slot.tid

/-- The scanning loop inside `find_index` (src/indexable.rs lines 44-52):
walks the TypeId array from position `i` upward and returns the position of
the first element equal to `id`, or usize::MAX when the array is
exhausted. -/
def find_index_loop (id : TypeId) : List TypeId → Nat → Nat
  | [], _ => USIZE_MAX
  | a :: l, i => if a = id then i else find_index_loop id l (i + 1)

/-- const fn `find_index<T, S>` (src/indexable.rs lines 36-54): index of the
first element of the TypeId array equal to `id`, else usize::MAX.  This is
also the value of the associated const `FindIndex::INDEX` /
`GetIndex::INDEX`. -/
def find_index (id : TypeId) (arr : List TypeId) : Nat := find_index_loop id arr 0

/-- `MaybeIndexable::insert_by_index` (src/indexable.rs).  At a valid index
the generated impl returns the old element and overwrites the slot with the
new item, whose static type becomes the slot type; at usize::MAX the impl
returns `Err(())` and prepends a new leading slot.  The source generates an
impl only for valid indices and for usize::MAX; `find_index` produces no
other index, and the model folds every out-of-range index into the
usize::MAX case. -/
def insert_by_index (i : Nat) (t : TypeId) (v : α) (s : List (Slot α)) :
    Except Unit α × List (Slot α) :=
  if h : i < s.length then (Except.ok (s.get ⟨i, h⟩).val, s.set i ⟨t, v⟩)
  else (Except.error (), ⟨t, v⟩ :: s)

/-- `MaybeIndexable::get_by_index` (src/indexable.rs): `Ok` with the element
at a valid index, `Err(())` at usize::MAX. -/
def get_by_index (i : Nat) (s : List (Slot α)) : Except Unit α :=
  if h : i < s.length then Except.ok (s.get ⟨i, h⟩).val else Except.error ()

/-- `MaybeIndexable::get_by_index_mut` (src/indexable.rs); at the value
level the exclusive borrow returns the same element as `get_by_index`. -/
def get_by_index_mut (i : Nat) (s : List (Slot α)) : Except Unit α :=
  if h : i < s.length then Except.ok (s.get ⟨i, h⟩).val else Except.error ()

/-- `MaybeIndexable::remove_by_index` (src/indexable.rs): at a valid index
returns the element and the structure with that slot dropped; at usize::MAX
returns `Err(())` and the structure unchanged. -/
def remove_by_index (i : Nat) (s : List (Slot α)) : Except Unit α × List (Slot α) :=
  if h : i < s.length then (Except.ok (s.get ⟨i, h⟩).val, s.eraseIdx i)
  else (Except.error (), s)

/-- `TryInsert::try_insert` (src/insert.rs lines 11-25): resolve the index
with `find_index`, call `insert_by_index`, and turn the `Result` into an
`Option` (`item.ok()`; the `ItemMap` of the valid-index impls is the
identity). -/
def try_insert (t : TypeId) (v : α) (s : List (Slot α)) : Option α × List (Slot α) :=
  ((insert_by_index (find_index t (tids s)) t v s).1.toOption,
   (insert_by_index (find_index t (tids s)) t v s).2)

/-- `TryGet::try_get` (src/try_get.rs): fallible lookup through
`get_by_index` at the resolved index. -/
def try_get (t : TypeId) (s : List (Slot α)) : Option α :=
  (get_by_index (find_index t (tids s)) s).toOption

/-- `TryGet::try_get_mut` (src/try_get.rs): the mutable counterpart, going
through `get_by_index_mut`. -/
def try_get_mut (t : TypeId) (s : List (Slot α)) : Option α :=
  (get_by_index_mut (find_index t (tids s)) s).toOption

/-- `TryRemove::try_remove` (used by `TyghtMap::try_remove`, src/lib.rs):
fallible removal through `remove_by_index` at the resolved index. -/
def try_remove (t : TypeId) (s : List (Slot α)) : Option α × List (Slot α) :=
  ((remove_by_index (find_index t (tids s)) s).1.toOption,
   (remove_by_index (find_index t (tids s)) s).2)

/-- `GetByIndex::get_by_index` (src/get.rs): the infallible accessor chain,
generated only for valid indices — hence the bound as an argument. -/
def get_by_index_g (i : Nat) (s : List (Slot α)) (h : i < s.length) : α :=
  (s.get ⟨i, h⟩).val

/-- `GetByIndex::get_by_index_mut` (src/get.rs): mutable counterpart of
`get_by_index_g`; same element at the value level. -/
def get_by_index_mut_g (i : Nat) (s : List (Slot α)) (h : i < s.length) : α :=
  (s.get ⟨i, h⟩).val

/-- `Get::get` (src/get.rs lines 125-138): infallible lookup at the
resolved index; the trait bound `GetByIndex<{S::INDEX}>` requires the
resolved index to be valid, carried here as the hypothesis `h`. -/
def get (t : TypeId) (s : List (Slot α)) (h : find_index t (tids s) < s.length) : α :=
  get_by_index_g (find_index t (tids s)) s h

/-- `Get::get_mut` (src/get.rs lines 125-138), via `get_by_index_mut_g`. -/
def get_mut (t : TypeId) (s : List (Slot α)) (h : find_index t (tids s) < s.length) : α :=
  get_by_index_mut_g (find_index t (tids s)) s h

/-- `RemoveByIndex::remove_by_index` (src/remove.rs lines 15-24), generated
only for valid indices: returns the element there and the tuple with that
slot dropped, all other elements kept in order. -/
def remove_by_index_r (i : Nat) (s : List (Slot α)) (h : i < s.length) :
    α × List (Slot α) :=
  ((s.get ⟨i, h⟩).val, s.eraseIdx i)

/-- `Remove::remove` (src/remove.rs lines 48-59): infallible removal at the
resolved index, valid by the trait bound `RemoveByIndex<{S::INDEX}>`. -/
def remove (t : TypeId) (s : List (Slot α)) (h : find_index t (tids s) < s.length) :
    α × List (Slot α) :=
  remove_by_index_r (find_index t (tids s)) s h

/-- `Insert::insert` (src/insert.rs lines 32-42): callable only when
`FindIndex::INDEX == usize::MAX`; defined as the map component of
`try_insert`, exactly as in the source. -/
def insert (t : TypeId) (v : α) (s : List (Slot α)) : List (Slot α) :=
  (try_insert t v s).2

/-- `TyghtMap::replace` (src/lib.rs lines 160-167):
`mem::replace(self.get_mut(), item)` — reads the slot at the resolved index
through `get_mut` and writes the new value through the same exclusive
borrow, so the slot keeps its static type and only its value changes. -/
def replace (t : TypeId) (v : α) (s : List (Slot α))
    (h : find_index t (tids s) < s.length) : α × List (Slot α) :=
  ((s.get ⟨find_index t (tids s), h⟩).val,
   s.set (find_index t (tids s)) ⟨(s.get ⟨find_index t (tids s), h⟩).tid, v⟩)

/-- The associated const `MaybeContains::CONTAINS` of the Cons/Nil
generation (src/maybe_contains.rs): false on Nil; on a Cons, true when the
head type matches, else the tail verdict. -/
def mc_contains (t : TypeId) : List (Slot α) → Bool
  | [] => false
  | a :: l => if a.tid = t then true else mc_contains t l

/-- `MaybeContains::try_get` of the Cons/Nil generation
(src/maybe_contains.rs): None on Nil; head value when the head type
matches, else recurse into the tail. -/
def mc_try_get (t : TypeId) : List (Slot α) → Option α
  | [] => none
  | a :: l => if a.tid = t then some a.val else mc_try_get t l

/-- `MaybeContains::try_get_mut` of the Cons/Nil generation
(src/maybe_contains.rs); same element as `mc_try_get` at the value
level. -/
def mc_try_get_mut (t : TypeId) : List (Slot α) → Option α
  | [] => none
  | a :: l => if a.tid = t then some a.val else mc_try_get_mut t l

/-- `MaybeContains::try_remove` of the Cons/Nil generation
(src/maybe_contains.rs): `(None, Nil)` on Nil; on a head match, the head
value and the tail; otherwise keep the head and recurse. -/
def mc_try_remove (t : TypeId) : List (Slot α) → Option α × List (Slot α)
  | [] => (none, [])
  | a :: l =>
    if a.tid = t then (some a.val, l)
    else
      ((mc_try_remove t l).1, a :: (mc_try_remove t l).2)

/-- The maps reachable through the facade (src/lib.rs): built from the
empty map by `try_insert`, `insert`, `remove`, `try_remove` and `replace`.
Every step carries the bound under which src/macros.rs generates the
required trait impls for the input tuple: at most `CAPACITY` elements. -/
inductive Reachable {α : Type} : List (Slot α) → Prop where
  | nil : Reachable []
  | step_try_insert (s : List (Slot α)) (t : TypeId) (v : α) :
      Reachable s → s.length ≤ CAPACITY → Reachable (try_insert t v s).2
  | step_insert (s : List (Slot α)) (t : TypeId) (v : α) :
      Reachable s → s.length ≤ CAPACITY →
      find_index t (tids s) = USIZE_MAX → Reachable (insert t v s)
  | step_remove (s : List (Slot α)) (t : TypeId)
      (h : find_index t (tids s) < s.length) :
      Reachable s → s.length ≤ CAPACITY → Reachable (remove t s h).2
  | step_try_remove (s : List (Slot α)) (t : TypeId) :
      Reachable s → s.length ≤ CAPACITY → Reachable (try_remove t s).2
  | step_replace (s : List (Slot α)) (t : TypeId) (v : α)
      (h : find_index t (tids s) < s.length) :
      Reachable s → s.length ≤ CAPACITY → Reachable (replace t v s h).2

/-- Length of the TypeId array equals the length of the structure. -/
theorem length_tids (s : List (Slot α)) : (tids s).length = s.length :=
  List.length_map s Slot.tid

/-- The loop of `find_index` returns the sentinel when the queried id does
not occur in the array. -/
theorem find_index_loop_of_not_mem (id : TypeId) (l : List TypeId) (i : Nat)
    (h : id ∉ l) : find_index_loop id l i = USIZE_MAX := by
  induction l generalizing i with
  | nil => rfl
  | cons a l ih =>
    simp only [List.mem_cons, not_or] at h
    simp only [find_index_loop]
    rw [if_neg (fun hc => h.1 hc.symm)]
    exact ih i.succ h.2

/-- `find_index` returns the sentinel on an array lacking the queried
id. -/
theorem find_index_of_not_mem (id : TypeId) (l : List TypeId) (h : id ∉ l) :
    find_index id l = USIZE_MAX :=
  find_index_loop_of_not_mem id l 0 h

/-- A non-sentinel result of the loop is `i` plus the offset of a matching
element. -/
theorem find_index_loop_spec (id : TypeId) (l : List TypeId) (i : Nat)
    (h : find_index_loop id l i ≠ USIZE_MAX) :
    ∃ j, ∃ hj : j < l.length, l.get ⟨j, hj⟩ = id ∧ find_index_loop id l i = i + j := by
  induction l generalizing i with
  | nil => exact absurd rfl h
  | cons a l ih =>
    by_cases ha : a = id
    · exact ⟨0, Nat.succ_pos _, ha, by simp [find_index_loop, ha]⟩
    · simp only [find_index_loop, if_neg ha] at h ⊢
      obtain ⟨j, hj, hget, heq⟩ := ih (i + 1) h
      exact ⟨j + 1, Nat.succ_lt_succ hj, hget, by omega⟩

/-- When the queried id occurs in the array, the loop result is `i` plus an
offset below the array length. -/
theorem find_index_loop_of_mem (id : TypeId) (l : List TypeId) (i : Nat)
    (h : id ∈ l) : ∃ j, j < l.length ∧ find_index_loop id l i = i + j := by
  induction l generalizing i with
  | nil => exact absurd h (List.not_mem_nil id)
  | cons a l ih =>
    by_cases ha : a = id
    · exact ⟨0, Nat.succ_pos _, by simp [find_index_loop, ha]⟩
    · rcases List.mem_cons.mp h with hh | ht
      · exact absurd hh.symm ha
      · obtain ⟨j, hj, heq⟩ := ih (i + 1) ht
        exact ⟨j + 1, Nat.succ_lt_succ hj, by simp [find_index_loop, if_neg ha]; omega⟩

/-- A non-sentinel `find_index` result is a valid position holding the
queried id. -/
theorem find_index_spec (id : TypeId) (l : List TypeId)
    (h : find_index id l ≠ USIZE_MAX) :
    ∃ hlt : find_index id l < l.length, l.get ⟨find_index id l, hlt⟩ = id := by
  obtain ⟨j, hj, hget, heq⟩ := find_index_loop_spec id l 0 h
  rw [find_index] at *
  rw [heq, Nat.zero_add] at *
  exact ⟨hj, hget⟩

/-- On arrays no longer than the sentinel value, a sentinel result of
`find_index` means genuine absence. -/
theorem not_mem_of_find_index_max (id : TypeId) (l : List TypeId)
    (hlen : l.length ≤ USIZE_MAX) (h : find_index id l = USIZE_MAX) : id ∉ l := by
  intro hmem
  obtain ⟨j, hj, heq⟩ := find_index_loop_of_mem id l 0 hmem
  rw [find_index, heq, Nat.zero_add] at h
  omega

/-- Presence of the queried id in the array gives a valid `find_index`
result. -/
theorem find_index_lt_of_mem (id : TypeId) (l : List TypeId) (hmem : id ∈ l) :
    find_index id l < l.length := by
  obtain ⟨j, hj, heq⟩ := find_index_loop_of_mem id l 0 hmem
  rw [find_index, heq, Nat.zero_add]
  exact hj

/-- The capacity bound is far below the sentinel, so valid indices of a
generated tuple never collide with usize::MAX. -/
theorem capacity_le_usize_max : CAPACITY ≤ USIZE_MAX := by decide

/-- TypeId array of a cons cell. -/
theorem tids_cons (a : Slot α) (s : List (Slot α)) : tids (a :: s) = a.tid :: tids s := rfl

/-- Overwriting a slot overwrites the corresponding TypeId array entry. -/
theorem tids_set (s : List (Slot α)) (i : Nat) (a : Slot α) :
    tids (s.set i a) = (tids s).set i a.tid := by
  simp [tids]

/-- Dropping a slot drops the corresponding TypeId array entry. -/
theorem tids_eraseIdx (s : List (Slot α)) (i : Nat) :
    tids (s.eraseIdx i) = (tids s).eraseIdx i := by
  induction s generalizing i with
  | nil => rfl
  | cons a s ih =>
    cases i with
    | zero => rfl
    | succ n =>
      simp only [List.eraseIdx_cons_succ, tids_cons, ih n]

/-- Entry of the TypeId array is the TypeId of the slot. -/
theorem tids_get (s : List (Slot α)) (i : Nat) (h : i < s.length)
    (h2 : i < (tids s).length) : (tids s).get ⟨i, h2⟩ = (s.get ⟨i, h⟩).tid := by
  simp [tids]

/-- Writing back the element already at a position leaves a list
unchanged. -/
theorem set_get_self {β : Type} (l : List β) (i : Nat) (h : i < l.length) :
    l.set i (l.get ⟨i, h⟩) = l := by
  induction l generalizing i with
  | nil => rfl
  | cons a l ih =>
    cases i with
    | zero => rfl
    | succ n =>
      simp only [List.set_cons_succ, List.get_cons_succ]
      rw [ih n (Nat.lt_of_succ_lt_succ h)]

/-- Writing a value equal to the element already at a position leaves a
list unchanged. -/
theorem set_eq_self_of_get_eq {β : Type} (l : List β) (i : Nat) (h : i < l.length)
    (a : β) (ha : l.get ⟨i, h⟩ = a) : l.set i a = l := by
  rw [← ha]
  exact set_get_self l i h

/-- Entries strictly before a dropped position are unmoved. -/
theorem eraseIdx_getElem?_lt {β : Type} (l : List β) (i j : Nat) (h : j < i) :
    (l.eraseIdx i)[j]? = l[j]? := by
  induction l generalizing i j with
  | nil => simp
  | cons a l ih =>
    cases i with
    | zero => omega
    | succ n =>
      cases j with
      | zero => simp
      | succ m =>
        simp only [List.eraseIdx_cons_succ, List.getElem?_cons_succ]
        exact ih n m (by omega)

/-- Entries at or after a dropped position shift down by one. -/
theorem eraseIdx_getElem?_ge {β : Type} (l : List β) (i j : Nat) (h : i ≤ j) :
    (l.eraseIdx i)[j]? = l[j + 1]? := by
  induction l generalizing i j with
  | nil => simp
  | cons a l ih =>
    cases i with
    | zero => simp [List.eraseIdx_cons_zero]
    | succ n =>
      cases j with
      | zero => omega
      | succ m =>
        simp only [List.eraseIdx_cons_succ, List.getElem?_cons_succ]
        exact ih n m (by omega)

/-- Unfolding of `try_insert` at a valid resolved index: the generated
valid-index impl of `insert_by_index` fires, returning the old value and
overwriting the slot. -/
theorem try_insert_of_lt (s : List (Slot α)) (t : TypeId) (v : α)
    (h : find_index t (tids s) < s.length) :
    try_insert t v s =
      (some (s.get ⟨find_index t (tids s), h⟩).val,
       s.set (find_index t (tids s)) ⟨t, v⟩) := by
  simp [try_insert, insert_by_index, dif_pos h, Except.toOption]

/-- Unfolding of `try_insert` at an unresolved index: the usize::MAX impl
of `insert_by_index` fires, prepending a new leading slot. -/
theorem try_insert_of_not_lt (s : List (Slot α)) (t : TypeId) (v : α)
    (h : ¬ find_index t (tids s) < s.length) :
    try_insert t v s = (none, ⟨t, v⟩ :: s) := by
  simp [try_insert, insert_by_index, dif_neg h, Except.toOption]

/-- Unfolding of `try_remove` at a valid resolved index. -/
theorem try_remove_of_lt (s : List (Slot α)) (t : TypeId)
    (h : find_index t (tids s) < s.length) :
    try_remove t s =
      (some (s.get ⟨find_index t (tids s), h⟩).val,
       s.eraseIdx (find_index t (tids s))) := by
  simp [try_remove, remove_by_index, dif_pos h, Except.toOption]

/-- Unfolding of `try_remove` at an unresolved index: the structure comes
back unchanged. -/
theorem try_remove_of_not_lt (s : List (Slot α)) (t : TypeId)
    (h : ¬ find_index t (tids s) < s.length) :
    try_remove t s = (none, s) := by
  simp [try_remove, remove_by_index, dif_neg h, Except.toOption]

/-- Unfolding of `try_get` at a valid resolved index. -/
theorem try_get_of_lt (s : List (Slot α)) (t : TypeId)
    (h : find_index t (tids s) < s.length) :
    try_get t s = some (s.get ⟨find_index t (tids s), h⟩).val := by
  simp [try_get, get_by_index, dif_pos h, Except.toOption]

/-- Under the capacity bound, the slot at a validly resolved index carries
the queried TypeId. -/
theorem tid_at_find_index (s : List (Slot α)) (t : TypeId)
    (hcap : s.length ≤ CAPACITY) (h : find_index t (tids s) < s.length) :
    (s.get ⟨find_index t (tids s), h⟩).tid = t := by
  have hne : find_index t (tids s) ≠ USIZE_MAX := by
    have := capacity_le_usize_max
    omega
  obtain ⟨hlt, hget⟩ := find_index_spec t (tids s) hne
  rw [← tids_get s _ h hlt]
  exact hget

/-- Under the capacity bound, overwriting the resolved slot with a new
value of the same queried type leaves the TypeId array unchanged. -/
theorem tids_set_found (s : List (Slot α)) (t : TypeId) (v : α)
    (hcap : s.length ≤ CAPACITY) (h : find_index t (tids s) < s.length) :
    tids (s.set (find_index t (tids s)) ⟨t, v⟩) = tids s := by
  rw [tids_set]
  have h2 : find_index t (tids s) < (tids s).length := by rw [length_tids]; exact h
  have hget := tids_get s (find_index t (tids s)) h h2
  rw [tid_at_find_index s t hcap h] at hget
  exact set_eq_self_of_get_eq (tids s) (find_index t (tids s)) h2 _ hget

/-- C1: for every map S and queried type T satisfying the Contains
precondition (the resolver yields a valid index), the fallible and
infallible tiers agree: try_get equals some applied to get, try_get_mut
equals some applied to get_mut, and try_remove returns exactly the pair
(some r, S2) where remove returns (r, S2); and for T satisfying the
Missing precondition (resolver yields usize::MAX), insert yields the same
resulting map as the map component of try_insert. -/
theorem c1_tier_agreement {α : Type} (s : List (Slot α)) (t : TypeId) (v : α) :
    (∀ h : find_index t (tids s) < s.length,
      try_get t s = some (get t s h) ∧
      try_get_mut t s = some (get_mut t s h) ∧
      try_remove t s = (some (remove t s h).1, (remove t s h).2)) ∧
    (find_index t (tids s) = USIZE_MAX → insert t v s = (try_insert t v s).2) := by
  refine ⟨fun h => ⟨?_, ?_, ?_⟩, fun _ => rfl⟩ <;>
    simp [try_get, try_get_mut, try_remove, get, get_mut, remove, get_by_index,
      get_by_index_mut, remove_by_index, get_by_index_g, get_by_index_mut_g,
      remove_by_index_r, dif_pos h, Except.toOption]

/-- Witness for C1: the singleton map holding TypeId 1 with value 10,
queried at present TypeId 1 and absent TypeId 2. -/
theorem c1_tier_agreement_witness :
    try_get 1 [(⟨1, 10⟩ : Slot Nat)] = some (get 1 [⟨1, 10⟩] (by decide)) ∧
    try_get_mut 1 [(⟨1, 10⟩ : Slot Nat)] = some (get_mut 1 [⟨1, 10⟩] (by decide)) ∧
    try_remove 1 [(⟨1, 10⟩ : Slot Nat)] =
      (some (remove 1 [⟨1, 10⟩] (by decide)).1, (remove 1 [⟨1, 10⟩] (by decide)).2) ∧
    insert 2 7 [(⟨1, 10⟩ : Slot Nat)] = (try_insert 2 7 [⟨1, 10⟩]).2 := by
  obtain ⟨h1, h2, h3⟩ := (c1_tier_agreement [(⟨1, 10⟩ : Slot Nat)] 1 10).1 (by decide)
  exact ⟨h1, h2, h3, (c1_tier_agreement [(⟨1, 10⟩ : Slot Nat)] 2 7).2 (by decide)⟩

/-- C4: on a set not containing T (bounded by the generated capacity),
try_insert returns none and prepends a new leading slot holding the new
value, all previously stored slots following unchanged in order. -/
theorem c4_try_insert_absent {α : Type} (s : List (Slot α)) (t : TypeId) (v : α)
    (hcap : s.length ≤ CAPACITY) (habs : t ∉ tids s) :
    try_insert t v s = (none, ⟨t, v⟩ :: s) := by
  have hmax : find_index t (tids s) = USIZE_MAX := find_index_of_not_mem t (tids s) habs
  refine try_insert_of_not_lt s t v ?_
  rw [hmax]
  have := capacity_le_usize_max
  omega

/-- Witness for C4: inserting absent TypeId 2 into the singleton map
holding TypeId 1. -/
theorem c4_try_insert_absent_witness :
    try_insert 2 7 [(⟨1, 10⟩ : Slot Nat)] = (none, [⟨2, 7⟩, ⟨1, 10⟩]) :=
  c4_try_insert_absent [(⟨1, 10⟩ : Slot Nat)] 2 7 (by decide) (by decide)

/-- C6: on a set lacking T (bounded by the generated capacity), try_remove
returns none together with the structure entirely unchanged. -/
theorem c6_try_remove_absent {α : Type} (s : List (Slot α)) (t : TypeId)
    (hcap : s.length ≤ CAPACITY) (habs : t ∉ tids s) :
    try_remove t s = (none, s) := by
  have hmax : find_index t (tids s) = USIZE_MAX := find_index_of_not_mem t (tids s) habs
  refine try_remove_of_not_lt s t ?_
  rw [hmax]
  have := capacity_le_usize_max
  omega

/-- Witness for C6: removing absent TypeId 2 from the singleton map
holding TypeId 1. -/
theorem c6_try_remove_absent_witness :
    try_remove 2 [(⟨1, 10⟩ : Slot Nat)] = (none, [⟨1, 10⟩]) :=
  c6_try_remove_absent [(⟨1, 10⟩ : Slot Nat)] 2 (by decide) (by decide)

/-- C3: for a set lacking T (bounded by the generated capacity), removing
T right after inserting a value v of type T is the identity round trip:
remove applied to the inserted map returns exactly the pair of v and the
original set. -/
theorem c3_insert_remove_roundtrip {α : Type} (s : List (Slot α)) (t : TypeId) (v : α)
    (hcap : s.length ≤ CAPACITY) (habs : t ∉ tids s)
    (h : find_index t (tids (insert t v s)) < (insert t v s).length) :
    remove t (insert t v s) h = (v, s) := by
  have hmax : find_index t (tids s) = USIZE_MAX := find_index_of_not_mem t (tids s) habs
  have hins : insert t v s = ⟨t, v⟩ :: s := by
    rw [insert, try_insert_of_not_lt s t v]
    rw [hmax]
    have := capacity_le_usize_max
    omega
  revert h
  rw [hins]
  intro h
  have hf : find_index t (tids (⟨t, v⟩ :: s)) = 0 := by
    simp [tids_cons, find_index, find_index_loop]
  simp [remove, remove_by_index_r, hf]

/-- Witness for C3: inserting absent TypeId 2 with value 7 into the
singleton map holding TypeId 1, then removing it. -/
theorem c3_insert_remove_roundtrip_witness :
    remove 2 (insert 2 7 [(⟨1, 10⟩ : Slot Nat)]) (by decide) = (7, [⟨1, 10⟩]) :=
  c3_insert_remove_roundtrip [(⟨1, 10⟩ : Slot Nat)] 2 7 (by decide) (by decide) (by decide)

/-- C5: on a set already containing T (valid resolved index, set bounded
by the generated capacity), try_insert swaps the stored value out: it
returns some of the old value, overwrites the resolved slot, keeps the
size and the whole TypeId set unchanged, and a following try_get yields
the new value. -/
theorem c5_try_insert_present {α : Type} (s : List (Slot α)) (t : TypeId) (v : α)
    (hcap : s.length ≤ CAPACITY) (h : find_index t (tids s) < s.length) :
    (try_insert t v s).1 = some (s.get ⟨find_index t (tids s), h⟩).val ∧
    (try_insert t v s).2 = s.set (find_index t (tids s)) ⟨t, v⟩ ∧
    ((try_insert t v s).2).length = s.length ∧
    tids (try_insert t v s).2 = tids s ∧
    try_get t (try_insert t v s).2 = some v := by
  have hu := try_insert_of_lt s t v h
  have htids : tids (try_insert t v s).2 = tids s := by
    rw [hu]
    exact tids_set_found s t v hcap h
  have hlen2 : ((try_insert t v s).2).length = s.length := by
    rw [hu]
    exact List.length_set s _ _
  refine ⟨by rw [hu], by rw [hu], hlen2, htids, ?_⟩
  have h2 : find_index t (tids (try_insert t v s).2) < ((try_insert t v s).2).length := by
    rw [htids, hlen2]
    exact h
  have h3 : find_index t (tids (try_insert t v s).2) = find_index t (tids s) := by
    rw [htids]
  have hval : ∀ hb : find_index t (tids (try_insert t v s).2) < ((try_insert t v s).2).length,
      ((try_insert t v s).2).get ⟨find_index t (tids (try_insert t v s).2), hb⟩ = ⟨t, v⟩ := by
    rw [h3, hu]
    intro hb
    simp
  rw [try_get_of_lt _ t h2, hval h2]

/-- Witness for C5: overwriting the value of present TypeId 1 in the
singleton map. -/
theorem c5_try_insert_present_witness :
    (try_insert 1 5 [(⟨1, 10⟩ : Slot Nat)]).1 = some 10 ∧
    ((try_insert 1 5 [(⟨1, 10⟩ : Slot Nat)]).2).length = 1 ∧
    tids (try_insert 1 5 [(⟨1, 10⟩ : Slot Nat)]).2 = [1] ∧
    try_get 1 (try_insert 1 5 [(⟨1, 10⟩ : Slot Nat)]).2 = some 5 := by
  have hc := c5_try_insert_present [(⟨1, 10⟩ : Slot Nat)] 1 5 (by decide) (by decide)
  exact ⟨hc.1.trans (by decide), hc.2.2.1, hc.2.2.2.1.trans (by decide), hc.2.2.2.2⟩

/-- C7: replace on a set containing T returns the prior value of the
resolved slot, stores the new value there under the unchanged slot type,
leaves the TypeId set and the length identical, and leaves every other
slot untouched. -/
theorem c7_replace_frame {α : Type} (s : List (Slot α)) (t : TypeId) (v : α)
    (h : find_index t (tids s) < s.length) :
    (replace t v s h).1 = (s.get ⟨find_index t (tids s), h⟩).val ∧
    tids (replace t v s h).2 = tids s ∧
    ((replace t v s h).2).length = s.length ∧
    ((replace t v s h).2)[find_index t (tids s)]? =
      some ⟨(s.get ⟨find_index t (tids s), h⟩).tid, v⟩ ∧
    ∀ j, j ≠ find_index t (tids s) → ((replace t v s h).2)[j]? = s[j]? := by
  refine ⟨rfl, ?_, ?_, ?_, ?_⟩
  · rw [replace, tids_set]
    have h2 : find_index t (tids s) < (tids s).length := by rw [length_tids]; exact h
    exact set_eq_self_of_get_eq (tids s) _ h2 _ (tids_get s _ h h2)
  · rw [replace]
    exact List.length_set s _ _
  · rw [replace]
    exact List.getElem?_set_self h
  · intro j hj
    rw [replace]
    exact List.getElem?_set_ne (Ne.symm hj)

/-- Witness for C7: replacing the value of present TypeId 1 in a two-slot
map; the slot of TypeId 2 is untouched. -/
theorem c7_replace_frame_witness :
    (replace 1 5 [(⟨1, 10⟩ : Slot Nat), ⟨2, 20⟩] (by decide)).1 = 10 ∧
    tids (replace 1 5 [(⟨1, 10⟩ : Slot Nat), ⟨2, 20⟩] (by decide)).2 = [1, 2] ∧
    ((replace 1 5 [(⟨1, 10⟩ : Slot Nat), ⟨2, 20⟩] (by decide)).2)[1]? = some ⟨2, 20⟩ := by
  have hc := c7_replace_frame [(⟨1, 10⟩ : Slot Nat), ⟨2, 20⟩] 1 5 (by decide)
  exact ⟨hc.1.trans (by decide), hc.2.1.trans (by decide),
    (hc.2.2.2.2 1 (by decide)).trans (by decide)⟩

/-- C10: on a set containing T (valid resolved index), remove and
try_remove agree, return the value of the resolved slot, and produce a set
of exactly the other slots: one shorter, entries before the resolved index
unmoved, entries after it shifted down by one with values untouched. -/
theorem c10_remove_frame {α : Type} (s : List (Slot α)) (t : TypeId)
    (h : find_index t (tids s) < s.length) :
    try_remove t s = (some (remove t s h).1, (remove t s h).2) ∧
    (remove t s h).1 = (s.get ⟨find_index t (tids s), h⟩).val ∧
    ((remove t s h).2).length + 1 = s.length ∧
    (∀ j, j < find_index t (tids s) → ((remove t s h).2)[j]? = s[j]?) ∧
    ∀ j, find_index t (tids s) ≤ j → ((remove t s h).2)[j]? = s[j + 1]? := by
  refine ⟨?_, rfl, ?_, ?_, ?_⟩
  · rw [try_remove_of_lt s t h]
    rfl
  · have hr : (remove t s h).2 = s.eraseIdx (find_index t (tids s)) := rfl
    rw [hr, List.length_eraseIdx_of_lt h]
    omega
  · intro j hj
    exact eraseIdx_getElem?_lt s _ j hj
  · intro j hj
    exact eraseIdx_getElem?_ge s _ j hj

/-- Witness for C10: removing present TypeId 1 from a two-slot map; the
slot of TypeId 2 shifts into position 0 unchanged. -/
theorem c10_remove_frame_witness :
    try_remove 1 [(⟨1, 10⟩ : Slot Nat), ⟨2, 20⟩] =
      (some (remove 1 [(⟨1, 10⟩ : Slot Nat), ⟨2, 20⟩] (by decide)).1,
       (remove 1 [(⟨1, 10⟩ : Slot Nat), ⟨2, 20⟩] (by decide)).2) ∧
    ((remove 1 [(⟨1, 10⟩ : Slot Nat), ⟨2, 20⟩] (by decide)).2).length + 1 = 2 ∧
    ((remove 1 [(⟨1, 10⟩ : Slot Nat), ⟨2, 20⟩] (by decide)).2)[0]? = some ⟨2, 20⟩ := by
  have hc := c10_remove_frame [(⟨1, 10⟩ : Slot Nat), ⟨2, 20⟩] 1 (by decide)
  exact ⟨hc.1, hc.2.2.1, (hc.2.2.2.2 0 (by decide)).trans (by decide)⟩

/-- Unfolding of `try_get_mut` at a valid resolved index. -/
theorem try_get_mut_of_lt (s : List (Slot α)) (t : TypeId)
    (h : find_index t (tids s) < s.length) :
    try_get_mut t s = some (s.get ⟨find_index t (tids s), h⟩).val := by
  simp [try_get_mut, get_by_index_mut, dif_pos h, Except.toOption]

/-- On a structure whose CONTAINS verdict is true, the fallible accessors
of the Cons/Nil generation all return some value. -/
theorem mc_present_isSome (t : TypeId) :
    ∀ s : List (Slot α), mc_contains t s = true →
      (mc_try_get t s).isSome ∧ (mc_try_get_mut t s).isSome ∧
      (mc_try_remove t s).1.isSome := by
  intro s
  induction s with
  | nil => intro hc; simp [mc_contains] at hc
  | cons a l ih =>
    intro hc
    by_cases ha : a.tid = t
    · simp [mc_try_get, mc_try_get_mut, mc_try_remove, ha]
    · simp only [mc_contains, if_neg ha] at hc
      simp only [mc_try_get, mc_try_get_mut, mc_try_remove, if_neg ha]
      exact ih hc

/-- On a structure whose CONTAINS verdict is false, the fallible accessors
of the Cons/Nil generation signal absence through none and try_remove
hands the structure back unchanged. -/
theorem mc_absent_none (t : TypeId) :
    ∀ s : List (Slot α), mc_contains t s = false →
      mc_try_get t s = none ∧ (mc_try_remove t s).1 = none ∧
      (mc_try_remove t s).2 = s := by
  intro s
  induction s with
  | nil => intro _; exact ⟨rfl, rfl, rfl⟩
  | cons a l ih =>
    intro hc
    by_cases ha : a.tid = t
    · simp [mc_contains, ha] at hc
    · simp only [mc_contains, if_neg ha] at hc
      obtain ⟨h1, h2, h3⟩ := ih hc
      simp only [mc_try_get, mc_try_remove, if_neg ha]
      exact ⟨h1, h2, by rw [h3]⟩

/-- C8: every fallible operation is total and signals absence only through
its optional result: when the Cons/Nil CONTAINS verdict is true the
results unwrapped by `Contains::get`, `get_mut` and `remove`
(src/contains.rs) are all some, so the internal unwrap never reaches its
panic branch; when the verdict is false the results are none and the
structure is handed back unchanged; and in the tuple generation a valid
resolved index likewise makes try_get, try_get_mut and try_remove
succeed. -/
theorem c8_fallible_total {α : Type} (s : List (Slot α)) (t : TypeId) :
    (mc_contains t s = true →
      (mc_try_get t s).isSome ∧ (mc_try_get_mut t s).isSome ∧
      (mc_try_remove t s).1.isSome) ∧
    (mc_contains t s = false →
      mc_try_get t s = none ∧ (mc_try_remove t s).1 = none ∧
      (mc_try_remove t s).2 = s) ∧
    ∀ h : find_index t (tids s) < s.length,
      (try_get t s).isSome ∧ (try_get_mut t s).isSome ∧ (try_remove t s).1.isSome := by
  refine ⟨mc_present_isSome t s, ?_, ?_⟩
  · intro hc
    obtain ⟨h1, h2, h3⟩ := mc_absent_none t s hc
    exact ⟨h1, h2, h3⟩
  · intro h
    refine ⟨?_, ?_, ?_⟩
    · rw [try_get_of_lt s t h]; rfl
    · rw [try_get_mut_of_lt s t h]; rfl
    · rw [try_remove_of_lt s t h]; rfl

/-- Witness for C8: the singleton map holding TypeId 1, queried at present
TypeId 1 and absent TypeId 2. -/
theorem c8_fallible_total_witness :
    ((mc_try_get 1 [(⟨1, 10⟩ : Slot Nat)]).isSome ∧
      (mc_try_get_mut 1 [(⟨1, 10⟩ : Slot Nat)]).isSome ∧
      (mc_try_remove 1 [(⟨1, 10⟩ : Slot Nat)]).1.isSome) ∧
    (mc_try_get 2 [(⟨1, 10⟩ : Slot Nat)] = none ∧
      (mc_try_remove 2 [(⟨1, 10⟩ : Slot Nat)]).1 = none ∧
      (mc_try_remove 2 [(⟨1, 10⟩ : Slot Nat)]).2 = [⟨1, 10⟩]) ∧
    (try_get 1 [(⟨1, 10⟩ : Slot Nat)]).isSome ∧
      (try_get_mut 1 [(⟨1, 10⟩ : Slot Nat)]).isSome ∧
      (try_remove 1 [(⟨1, 10⟩ : Slot Nat)]).1.isSome := by
  refine ⟨(c8_fallible_total [(⟨1, 10⟩ : Slot Nat)] 1).1 (by decide),
    (c8_fallible_total [(⟨1, 10⟩ : Slot Nat)] 2).2.1 (by decide),
    (c8_fallible_total [(⟨1, 10⟩ : Slot Nat)] 1).2.2 (by decide)⟩

/-- Nodup of the TypeId array is preserved by try_insert: a hit overwrites
in place keeping the TypeId array unchanged, a miss prepends a TypeId that
was genuinely absent. -/
theorem nodup_tids_try_insert (s : List (Slot α)) (t : TypeId) (v : α)
    (hcap : s.length ≤ CAPACITY) (hnd : (tids s).Nodup) :
    (tids (try_insert t v s).2).Nodup := by
  by_cases h : find_index t (tids s) < s.length
  · have h2 : tids (try_insert t v s).2 = tids s := by
      rw [try_insert_of_lt s t v h]
      exact tids_set_found s t v hcap h
    rw [h2]
    exact hnd
  · have h2 : (try_insert t v s).2 = ⟨t, v⟩ :: s := by
      rw [try_insert_of_not_lt s t v h]
    have habs : t ∉ tids s := by
      intro hmem
      have hlt := find_index_lt_of_mem t (tids s) hmem
      rw [length_tids] at hlt
      exact h hlt
    rw [h2, tids_cons]
    exact List.nodup_cons.mpr ⟨habs, hnd⟩

/-- Invariant: every reachable structure has pairwise distinct slot
TypeIds. -/
theorem reachable_nodup {α : Type} {s : List (Slot α)} (hr : Reachable s) :
    (tids s).Nodup := by
  induction hr with
  | nil => simp [tids]
  | step_try_insert s t v hr hcap ih => exact nodup_tids_try_insert s t v hcap ih
  | step_insert s t v hr hcap hmax ih => exact nodup_tids_try_insert s t v hcap ih
  | step_remove s t h hr hcap ih =>
    have h2 : tids (remove t s h).2 = (tids s).eraseIdx (find_index t (tids s)) :=
      tids_eraseIdx s _
    rw [h2]
    exact (List.eraseIdx_sublist (tids s) _).nodup ih
  | step_try_remove s t hr hcap ih =>
    by_cases h : find_index t (tids s) < s.length
    · have h2 : (try_remove t s).2 = s.eraseIdx (find_index t (tids s)) := by
        rw [try_remove_of_lt s t h]
      rw [h2, tids_eraseIdx]
      exact (List.eraseIdx_sublist (tids s) _).nodup ih
    · have h2 : (try_remove t s).2 = s := by
        rw [try_remove_of_not_lt s t h]
      rw [h2]
      exact ih
  | step_replace s t v h hr hcap ih =>
    have h2 : tids (replace t v s h).2 = tids s := by
      rw [replace, tids_set]
      have hb : find_index t (tids s) < (tids s).length := by
        rw [length_tids]
        exact h
      exact set_eq_self_of_get_eq (tids s) _ hb _ (tids_get s _ h hb)
    rw [h2]
    exact ih

/-- C2: on every reachable structure (bounded by the generated capacity),
try_insert leaves exactly one slot of the inserted TypeId, insert under
the Missing precondition does likewise, and no reachable structure ever
holds two slots of the same TypeId. -/
theorem c2_uniqueness {α : Type} (s : List (Slot α)) (t : TypeId) (v : α)
    (hr : Reachable s) (hcap : s.length ≤ CAPACITY) :
    (tids (try_insert t v s).2).count t = 1 ∧
    (find_index t (tids s) = USIZE_MAX → (tids (insert t v s)).count t = 1) ∧
    ∀ u, (tids s).count u ≤ 1 := by
  have hnd := reachable_nodup hr
  have hmain : (tids (try_insert t v s).2).count t = 1 := by
    by_cases h : find_index t (tids s) < s.length
    · have h2 : tids (try_insert t v s).2 = tids s := by
        rw [try_insert_of_lt s t v h]
        exact tids_set_found s t v hcap h
      rw [h2]
      refine List.count_eq_one_of_mem hnd ?_
      have hne : find_index t (tids s) ≠ USIZE_MAX := by
        have := capacity_le_usize_max
        omega
      obtain ⟨hl, hg⟩ := find_index_spec t (tids s) hne
      exact hg ▸ List.get_mem (tids s) _ hl
    · have h2 : (try_insert t v s).2 = ⟨t, v⟩ :: s := by
        rw [try_insert_of_not_lt s t v h]
      have habs : t ∉ tids s := by
        intro hmem
        have hlt := find_index_lt_of_mem t (tids s) hmem
        rw [length_tids] at hlt
        exact h hlt
      rw [h2, tids_cons, List.count_cons_self, List.count_eq_zero_of_not_mem habs]
  exact ⟨hmain, fun _ => hmain, fun u => List.nodup_iff_count_le_one.mp hnd u⟩

/-- Witness for C2: the reachable singleton map holding TypeId 1, with a
replacing try_insert of TypeId 1 and a fresh insert of TypeId 2. -/
theorem c2_uniqueness_witness :
    (tids (try_insert 1 5 [(⟨1, 10⟩ : Slot Nat)]).2).count 1 = 1 ∧
    (tids (insert 2 7 [(⟨1, 10⟩ : Slot Nat)])).count 2 = 1 ∧
    (tids [(⟨1, 10⟩ : Slot Nat)]).count 1 ≤ 1 := by
  have h0 := Reachable.step_insert ([] : List (Slot Nat)) 1 10 Reachable.nil
    (by decide) (by decide)
  have he : insert 1 10 ([] : List (Slot Nat)) = [⟨1, 10⟩] := by decide
  have hr : Reachable [(⟨1, 10⟩ : Slot Nat)] := he ▸ h0
  obtain ⟨ha, -, hc⟩ := c2_uniqueness [(⟨1, 10⟩ : Slot Nat)] 1 5 hr (by decide)
  obtain ⟨-, hb, -⟩ := c2_uniqueness [(⟨1, 10⟩ : Slot Nat)] 2 7 hr (by decide)
  exact ⟨ha, hb (by decide), hc 1⟩

end TyghtMap
